import Mathlib

/-!
# Anchor-Based Text Patcher: verification of the splice and truncate scripts

Shallow embedding of the two text-editing scripts of this repository:

* `temp_fix.py` — reads a file, computes `start = text.index(startLocator)`
  (first occurrence, raises on absence), `footer = text.rfind(endLocator)`
  (last occurrence, yields `-1` on absence without raising), and writes
  `text[:start] + patch + text[footer:]` back. Note that with `footer = -1`
  the Python slice `text[footer:]` is the final character of the text.
  This is the spec's `spliceBetween` followed by `persist`.

* `rewrite_cut.py` — reads a file, computes `pos = text.find(locator)`,
  raises `SystemExit` when `pos == -1` (before any write), and otherwise
  writes `text[:pos]` back. This is the spec's `truncateAt` followed by
  `persist`.

A Document is modelled as a `List Char`; Python's `str.find`, `str.index`
and `str.rfind` are modelled by `firstMatch` and `lastMatch` below, and
the fatal locator failures by an `Except` error that precedes the write.
-/

namespace TextPatch

/-- A Document: the full text content of a file being patched. -/
abbrev Document := List Char

/-- The single error kind of the scripts: a required anchor substring is
absent from the Document (`ValueError` from `str.index` in `temp_fix.py`,
`SystemExit` in `rewrite_cut.py`). -/
inductive SpliceError where
  | locatorNotFound
deriving DecidableEq, Repr

/-- Index of the first (lowest-offset) occurrence of `pat` in `s`, or
`none` when `pat` does not occur: Python's `s.find(pat)` / `s.index(pat)`,
with `none` standing for `-1` / the raised exception. -/
def firstMatch (pat : List Char) : List Char → Option Nat
  | [] => if pat.isPrefixOf ([] : List Char) then some 0 else none
  | c :: t =>
    if pat.isPrefixOf (c :: t) then some 0
    else (firstMatch pat t).map (· + 1)

/-- Index of the last (highest-offset) occurrence of `pat` in `s`, or
`none` when `pat` does not occur: Python's `s.rfind(pat)`, with `none`
standing for `-1`. -/
def lastMatch (pat : List Char) : List Char → Option Nat
  | [] => if pat.isPrefixOf ([] : List Char) then some 0 else none
  | c :: t =>
    match lastMatch pat t with
    | some j => some (j + 1)
    | none => if pat.isPrefixOf (c :: t) then some 0 else none

/-- Embedding of `temp_fix.py`'s patch computation:
`start = text.index(startLoc)`, `footer = text.rfind(endLoc)`,
result `text[:start] + patch + text[footer:]`. When `text.index` raises
(start locator absent) the script dies before the write. When `rfind`
yields `-1`, the Python slice `text[-1:]` keeps exactly the final
character (the empty text giving the empty slice), which is
`text.drop (text.length - 1)` under truncated `Nat` subtraction. -/
def spliceBetween (text startLoc endLoc patch : List Char) :
    Except SpliceError (List Char) :=
  match firstMatch startLoc text with
  | none => .error .locatorNotFound
  | some start =>
    let suffix :=
      match lastMatch endLoc text with
      | none => text.drop (text.length - 1)
      | some footer => text.drop footer
    .ok (text.take start ++ patch ++ suffix)

/-- Embedding of `rewrite_cut.py`'s patch computation:
`pos = text.find(needle)`; `SystemExit` when `pos == -1`, otherwise the
result is `text[:pos]`. -/
def truncateAt (text loc : List Char) : Except SpliceError (List Char) :=
  match firstMatch loc text with
  | none => .error .locatorNotFound
  | some pos => .ok (text.take pos)

/-- File content at the target path after one run of `temp_fix.py`: on
success the origin is overwritten with the computed text, on failure the
exception propagates before `p.write_text` and the origin is unchanged. -/
def runSplice (file startLoc endLoc patch : List Char) : List Char :=
  match spliceBetween file startLoc endLoc patch with
  | .ok out => out
  | .error _ => file

/-- File content at the target path after one run of `rewrite_cut.py`: on
success the origin is overwritten with the truncated text, on failure the
`SystemExit` fires before `path.write_text` and the origin is unchanged. -/
def runTruncate (file loc : List Char) : List Char :=
  match truncateAt file loc with
  | .ok out => out
  | .error _ => file

/-- The pattern `pat` matches inside `s` at offset `i`. -/
def MatchAt (pat s : List Char) (i : Nat) : Prop :=
  pat.isPrefixOf (s.drop i) = true ∧ i ≤ s.length

instance (pat s : List Char) (i : Nat) : Decidable (MatchAt pat s i) := by
  unfold MatchAt; exact inferInstance

/-- The locator `pat` occurs somewhere in the Document `s`. -/
def OccursIn (pat s : List Char) : Prop :=
  ∃ a b, s = a ++ pat ++ b

/-! ## Basic facts about `isPrefixOf`, `firstMatch` and `lastMatch` -/

theorem isPrefixOf_iff_append {p s : List Char} :
    p.isPrefixOf s = true ↔ ∃ t, s = p ++ t := by
  induction p generalizing s with
  | nil => simp [List.isPrefixOf]
  | cons a as ih =>
    cases s with
    | nil => simp [List.isPrefixOf]
    | cons b bs =>
      simp only [List.isPrefixOf, Bool.and_eq_true, beq_iff_eq, ih,
        List.cons_append, List.cons.injEq]
      constructor
      · rintro ⟨rfl, t, rfl⟩; exact ⟨t, rfl, rfl⟩
      · rintro ⟨t, rfl, rfl⟩; exact ⟨rfl, t, rfl⟩

theorem firstMatch_nil (pat : List Char) :
    firstMatch pat [] = if pat.isPrefixOf ([] : List Char) then some 0 else none :=
  rfl

theorem firstMatch_cons (pat : List Char) (c : Char) (t : List Char) :
    firstMatch pat (c :: t) =
      if pat.isPrefixOf (c :: t) then some 0 else (firstMatch pat t).map (· + 1) :=
  rfl

theorem lastMatch_nil (pat : List Char) :
    lastMatch pat [] = if pat.isPrefixOf ([] : List Char) then some 0 else none :=
  rfl

theorem lastMatch_cons_some {pat t : List Char} {j : Nat} (c : Char)
    (h : lastMatch pat t = some j) : lastMatch pat (c :: t) = some (j + 1) := by
  unfold lastMatch
  rw [h]

theorem lastMatch_cons_none {pat t : List Char} (c : Char)
    (h : lastMatch pat t = none) :
    lastMatch pat (c :: t) = if pat.isPrefixOf (c :: t) then some 0 else none := by
  unfold lastMatch
  rw [h]

theorem firstMatch_spec {pat s : List Char} {i : Nat}
    (h : firstMatch pat s = some i) :
    MatchAt pat s i ∧ ∀ j < i, pat.isPrefixOf (s.drop j) = false := by
  induction s generalizing i with
  | nil =>
    rw [firstMatch_nil] at h
    by_cases hp : pat.isPrefixOf ([] : List Char) = true
    · simp [hp] at h
      subst h
      exact ⟨⟨hp, Nat.le_refl _⟩, by omega⟩
    · simp [Bool.eq_false_iff.mpr hp] at h
  | cons c t ih =>
    rw [firstMatch_cons] at h
    by_cases hp : pat.isPrefixOf (c :: t) = true
    · simp [hp] at h
      subst h
      exact ⟨⟨hp, Nat.zero_le _⟩, by omega⟩
    · simp [Bool.eq_false_iff.mpr hp] at h
      obtain ⟨i', hi', rfl⟩ := h
      obtain ⟨⟨hm, hle⟩, hmin⟩ := ih hi'
      refine ⟨⟨by simpa using hm, by simpa using Nat.succ_le_succ hle⟩, ?_⟩
      intro j hj
      cases j with
      | zero => simpa using Bool.eq_false_iff.mpr hp
      | succ j' => simpa using hmin j' (by omega)

theorem firstMatch_none_spec {pat s : List Char}
    (h : firstMatch pat s = none) :
    ∀ j, pat.isPrefixOf (s.drop j) = false := by
  induction s with
  | nil =>
    rw [firstMatch_nil] at h
    intro j
    by_cases hp : pat.isPrefixOf ([] : List Char) = true
    · simp [hp] at h
    · simpa using Bool.eq_false_iff.mpr hp
  | cons c t ih =>
    rw [firstMatch_cons] at h
    by_cases hp : pat.isPrefixOf (c :: t) = true
    · simp [hp] at h
    · simp [Bool.eq_false_iff.mpr hp] at h
      intro j
      cases j with
      | zero => simpa using Bool.eq_false_iff.mpr hp
      | succ j' => simpa using ih h j'

theorem firstMatch_isSome_of_matchAt {pat s : List Char} {j : Nat}
    (h : pat.isPrefixOf (s.drop j) = true) :
    (firstMatch pat s).isSome = true := by
  cases hfm : firstMatch pat s with
  | none => exact absurd h (by simp [firstMatch_none_spec hfm j])
  | some i => rfl

theorem lastMatch_none_spec {pat s : List Char}
    (h : lastMatch pat s = none) :
    ∀ k ≤ s.length, pat.isPrefixOf (s.drop k) = false := by
  induction s with
  | nil =>
    rw [lastMatch_nil] at h
    intro k hk
    by_cases hp : pat.isPrefixOf ([] : List Char) = true
    · simp [hp] at h
    · have hk0 : k = 0 := by simpa using hk
      subst hk0
      simpa using Bool.eq_false_iff.mpr hp
  | cons c t ih =>
    intro k hk
    cases hlt : lastMatch pat t with
    | some j => rw [lastMatch_cons_some c hlt] at h; exact absurd h (by simp)
    | none =>
      rw [lastMatch_cons_none c hlt] at h
      by_cases hp : pat.isPrefixOf (c :: t) = true
      · simp [hp] at h
      · cases k with
        | zero => simpa using Bool.eq_false_iff.mpr hp
        | succ k' =>
          simp only [List.length_cons, Nat.succ_le_succ_iff] at hk
          simpa using ih hlt k' hk

theorem lastMatch_spec {pat s : List Char} {j : Nat}
    (h : lastMatch pat s = some j) :
    MatchAt pat s j ∧ ∀ k, MatchAt pat s k → k ≤ j := by
  induction s generalizing j with
  | nil =>
    rw [lastMatch_nil] at h
    by_cases hp : pat.isPrefixOf ([] : List Char) = true
    · simp [hp] at h
      subst h
      exact ⟨⟨hp, Nat.le_refl _⟩, fun k hk => by
        have := hk.2; simpa using this⟩
    · simp [Bool.eq_false_iff.mpr hp] at h
  | cons c t ih =>
    cases hlt : lastMatch pat t with
    | some j' =>
      rw [lastMatch_cons_some c hlt] at h
      simp at h
      subst h
      obtain ⟨⟨hm, hle⟩, hmax⟩ := ih hlt
      refine ⟨⟨by simpa using hm, by simpa using Nat.succ_le_succ hle⟩, ?_⟩
      intro k hk
      cases k with
      | zero => omega
      | succ k' =>
        have hk' : MatchAt pat t k' := by
          refine ⟨by simpa using hk.1, ?_⟩
          have := hk.2; simp at this; omega
        have := hmax k' hk'
        omega
    | none =>
      rw [lastMatch_cons_none c hlt] at h
      by_cases hp : pat.isPrefixOf (c :: t) = true
      · simp [hp] at h
        subst h
        refine ⟨⟨hp, Nat.zero_le _⟩, ?_⟩
        intro k hk
        cases k with
        | zero => exact Nat.le_refl _
        | succ k' =>
          have hk' : k' ≤ t.length := by
            have := hk.2; simp at this; omega
          have hnone := lastMatch_none_spec hlt k' hk'
          have hm : pat.isPrefixOf (t.drop k') = true := by simpa using hk.1
          rw [hnone] at hm
          exact absurd hm (by simp)
      · simp [Bool.eq_false_iff.mpr hp] at h

theorem lastMatch_eq_none_of_firstMatch {pat s : List Char}
    (h : firstMatch pat s = none) : lastMatch pat s = none := by
  cases hlm : lastMatch pat s with
  | none => rfl
  | some j =>
    obtain ⟨⟨hm, _⟩, _⟩ := lastMatch_spec hlm
    have := firstMatch_isSome_of_matchAt hm
    simp [h] at this

theorem occursIn_iff_matchAt {pat s : List Char} :
    OccursIn pat s ↔ ∃ i, MatchAt pat s i := by
  constructor
  · rintro ⟨a, b, rfl⟩
    refine ⟨a.length, ?_, ?_⟩
    · rw [List.append_assoc, List.drop_left]
      exact isPrefixOf_iff_append.mpr ⟨b, rfl⟩
    · simp
  · rintro ⟨i, hm, hle⟩
    obtain ⟨t, ht⟩ := isPrefixOf_iff_append.mp hm
    exact ⟨s.take i, t, by rw [List.append_assoc, ← ht, List.take_append_drop]⟩

theorem occursIn_iff_firstMatch {pat s : List Char} :
    OccursIn pat s ↔ (firstMatch pat s).isSome = true := by
  rw [occursIn_iff_matchAt]
  constructor
  · rintro ⟨i, hm, _⟩
    exact firstMatch_isSome_of_matchAt hm
  · intro h
    cases hfm : firstMatch pat s with
    | none => simp [hfm] at h
    | some i => exact ⟨i, (firstMatch_spec hfm).1⟩

theorem firstMatch_min {pat s : List Char} {i : Nat}
    (h : firstMatch pat s = some i) : ∀ k, MatchAt pat s k → i ≤ k := by
  intro k hk
  by_contra hlt
  push_neg at hlt
  have hf := (firstMatch_spec h).2 k hlt
  have hm := hk.1
  rw [hf] at hm
  exact absurd hm (by simp)

theorem firstMatch_eq_some_of_occursIn {pat s : List Char}
    (h : OccursIn pat s) : ∃ i, firstMatch pat s = some i := by
  have hs := occursIn_iff_firstMatch.mp h
  cases hfm : firstMatch pat s with
  | none => rw [hfm] at hs; simp at hs
  | some i => exact ⟨i, rfl⟩

theorem lastMatch_eq_some_of_occursIn {pat s : List Char}
    (h : OccursIn pat s) : ∃ j, lastMatch pat s = some j := by
  obtain ⟨i, hm⟩ := occursIn_iff_matchAt.mp h
  cases hlm : lastMatch pat s with
  | none =>
    have hf := lastMatch_none_spec hlm i hm.2
    have hm1 := hm.1
    rw [hf] at hm1
    exact absurd hm1 (by simp)
  | some j => exact ⟨j, rfl⟩

theorem firstMatch_eq_none_of_not_occursIn {pat s : List Char}
    (h : ¬ OccursIn pat s) : firstMatch pat s = none := by
  cases hfm : firstMatch pat s with
  | none => rfl
  | some i =>
    exact absurd (occursIn_iff_firstMatch.mpr (by rw [hfm]; rfl)) h

/-! ## Unfolding lemmas for the two operations -/

theorem spliceBetween_eq_of_some_some {d s e p : List Char} {i j : Nat}
    (hs : firstMatch s d = some i) (he : lastMatch e d = some j) :
    spliceBetween d s e p = Except.ok (d.take i ++ p ++ d.drop j) := by
  unfold spliceBetween
  rw [hs, he]

theorem spliceBetween_eq_of_some_none {d s e p : List Char} {i : Nat}
    (hs : firstMatch s d = some i) (he : lastMatch e d = none) :
    spliceBetween d s e p = Except.ok (d.take i ++ p ++ d.drop (d.length - 1)) := by
  unfold spliceBetween
  rw [hs, he]

theorem spliceBetween_eq_of_none {d s e p : List Char}
    (hs : firstMatch s d = none) :
    spliceBetween d s e p = Except.error SpliceError.locatorNotFound := by
  unfold spliceBetween
  rw [hs]

theorem truncateAt_eq_of_some {d l : List Char} {i : Nat}
    (h : firstMatch l d = some i) : truncateAt d l = Except.ok (d.take i) := by
  unfold truncateAt
  rw [h]

theorem truncateAt_eq_of_none {d l : List Char}
    (h : firstMatch l d = none) :
    truncateAt d l = Except.error SpliceError.locatorNotFound := by
  unfold truncateAt
  rw [h]

theorem drop_length_sub_one_eq {d : List Char} (h : d ≠ []) :
    d.drop (d.length - 1) = [d.getLast h] := by
  induction d with
  | nil => exact absurd rfl h
  | cons c t ih =>
    cases t with
    | nil => rfl
    | cons b u =>
      have hne : b :: u ≠ [] := by simp
      calc (c :: b :: u).drop ((c :: b :: u).length - 1)
          = (b :: u).drop ((b :: u).length - 1) := by
            simp [List.length_cons]
        _ = [(b :: u).getLast hne] := ih hne
        _ = [(c :: b :: u).getLast h] := by
            rw [List.getLast_cons hne]

/-! ## The claims -/

/-- C3: for every document `d` and locator `l` present in `d`, `truncateAt d l`
returns the prefix of `d` ending exactly at the start index of the first
(lowest-offset) occurrence of `l`, so the result's length equals that
occurrence's start offset and everything from the match onward is discarded. -/
theorem truncateAt_present_cuts_at_first_match (d l : List Char)
    (h : OccursIn l d) :
    ∃ i, MatchAt l d i ∧ (∀ k, MatchAt l d k → i ≤ k) ∧
      truncateAt d l = Except.ok (d.take i) ∧ (d.take i).length = i := by
  obtain ⟨i, hfm⟩ := firstMatch_eq_some_of_occursIn h
  obtain ⟨hmi, _⟩ := firstMatch_spec hfm
  exact ⟨i, hmi, firstMatch_min hfm, truncateAt_eq_of_some hfm,
    List.length_take_of_le hmi.2⟩

/-- Witness for C3 at the spec's concrete scenario 1:
`truncateAt "ABC<X/>DEF" "<X/>"` returns `"ABC"`, of length 3, the offset of
the first occurrence of the locator. -/
theorem truncateAt_present_cuts_at_first_match_witness :
    OccursIn "<X/>".toList "ABC<X/>DEF".toList ∧
    ∃ i, MatchAt "<X/>".toList "ABC<X/>DEF".toList i ∧
      (∀ k, MatchAt "<X/>".toList "ABC<X/>DEF".toList k → i ≤ k) ∧
      truncateAt "ABC<X/>DEF".toList "<X/>".toList =
        Except.ok ("ABC<X/>DEF".toList.take i) ∧
      ("ABC<X/>DEF".toList.take i).length = i :=
  have h : OccursIn "<X/>".toList "ABC<X/>DEF".toList := by
    rw [occursIn_iff_firstMatch]; decide
  ⟨h, truncateAt_present_cuts_at_first_match _ _ h⟩

/-- C4: for every document `d` and locator `l` not occurring in `d`,
`truncateAt d l` fails with the `LocatorNotFound` error (the script's
`SystemExit('needle not found')`), and the origin file is left unchanged:
no write occurs, so the file content after the run is still `d`. -/
theorem truncateAt_absent_fails_without_write (d l : List Char)
    (h : ¬ OccursIn l d) :
    truncateAt d l = Except.error SpliceError.locatorNotFound ∧
    runTruncate d l = d := by
  have hfm := firstMatch_eq_none_of_not_occursIn h
  refine ⟨truncateAt_eq_of_none hfm, ?_⟩
  unfold runTruncate
  rw [truncateAt_eq_of_none hfm]

/-- Witness for C4 at the spec's concrete scenario 3: locator `"xyz"` is
absent from `"hello world"`, `truncateAt` fails, and the file keeps its
content `"hello world"`. -/
theorem truncateAt_absent_fails_without_write_witness :
    ¬ OccursIn "xyz".toList "hello world".toList ∧
    (truncateAt "hello world".toList "xyz".toList =
        Except.error SpliceError.locatorNotFound ∧
      runTruncate "hello world".toList "xyz".toList = "hello world".toList) :=
  have h : ¬ OccursIn "xyz".toList "hello world".toList := by
    rw [occursIn_iff_firstMatch]; decide
  ⟨h, truncateAt_absent_fails_without_write _ _ h⟩

/-- C9: at the spec's concrete scenario 2, with document
`"ABC<X/>DEF<Y/>GHI"`, start locator `"<X/>"`, end locator `"<Y/>"` and
patch `"-PATCH-"`, `spliceBetween` returns `"ABC-PATCH-<Y/>GHI"`. -/
theorem spliceBetween_concrete_scenario :
    spliceBetween "ABC<X/>DEF<Y/>GHI".toList "<X/>".toList "<Y/>".toList
        "-PATCH-".toList =
      Except.ok "ABC-PATCH-<Y/>GHI".toList := by
  rfl

/-- C10: if the locator's first occurrence starts at offset 0 of the
document (the locator is a prefix of the document), `truncateAt` produces
the empty document and the origin file is overwritten with empty content
rather than failing. -/
theorem truncateAt_match_at_zero_writes_empty (d l : List Char)
    (h : l.isPrefixOf d = true) :
    firstMatch l d = some 0 ∧ truncateAt d l = Except.ok [] ∧
    runTruncate d l = [] := by
  have hfm : firstMatch l d = some 0 := by
    cases d with
    | nil => rw [firstMatch_nil, if_pos h]
    | cons c t => rw [firstMatch_cons, if_pos h]
  refine ⟨hfm, ?_, ?_⟩
  · rw [truncateAt_eq_of_some hfm]
    rfl
  · unfold runTruncate
    rw [truncateAt_eq_of_some hfm]
    rfl

/-- Witness for C10: the document `"<X/>DEF"` starts with the locator
`"<X/>"`; truncation succeeds and overwrites the file with empty content. -/
theorem truncateAt_match_at_zero_writes_empty_witness :
    "<X/>".toList.isPrefixOf "<X/>DEF".toList = true ∧
    (firstMatch "<X/>".toList "<X/>DEF".toList = some 0 ∧
      truncateAt "<X/>DEF".toList "<X/>".toList = Except.ok [] ∧
      runTruncate "<X/>DEF".toList "<X/>".toList = []) :=
  have h : "<X/>".toList.isPrefixOf "<X/>DEF".toList = true := by decide
  ⟨h, truncateAt_match_at_zero_writes_empty _ _ h⟩

/-- C1 (counterexample): the claim says `spliceBetween` keeps the suffix
from the FIRST occurrence of the end locator, but the script computes
`text.rfind(endLocator)`, the LAST occurrence. In `"aXbXc"` with start
locator `"a"` (first occurrence at 0) and end locator `"X"` (first
occurrence at 1), the script returns `"PXc"` (suffix from offset 3), not
the claim's `prefix + P + D[1:] = "PXbXc"`. -/
theorem spliceBetween_first_end_occurrence_cex :
    firstMatch "a".toList "aXbXc".toList = some 0 ∧
    firstMatch "X".toList "aXbXc".toList = some 1 ∧
    spliceBetween "aXbXc".toList "a".toList "X".toList "P".toList =
      Except.ok "PXc".toList ∧
    "PXc".toList ≠ "aXbXc".toList.take 0 ++ "P".toList ++ "aXbXc".toList.drop 1 :=
  ⟨rfl, rfl, rfl, by decide⟩

/-- C1 (amended): for every document `d` in which the start locator `s` and
the end locator `e` both occur, and every patch `p`, `spliceBetween d s e p`
returns the concatenation of the prefix of `d` before the first occurrence
of `s`, then `p`, then the substring of `d` from the LAST (highest-offset)
occurrence of `e` to the end. -/
theorem spliceBetween_both_present_returns_splice (d s e p : List Char)
    (hs : OccursIn s d) (he : OccursIn e d) :
    ∃ i j, MatchAt s d i ∧ (∀ k, MatchAt s d k → i ≤ k) ∧
      MatchAt e d j ∧ (∀ k, MatchAt e d k → k ≤ j) ∧
      spliceBetween d s e p = Except.ok (d.take i ++ p ++ d.drop j) := by
  obtain ⟨i, hfs⟩ := firstMatch_eq_some_of_occursIn hs
  obtain ⟨j, hle⟩ := lastMatch_eq_some_of_occursIn he
  obtain ⟨hmj, hmax⟩ := lastMatch_spec hle
  exact ⟨i, j, (firstMatch_spec hfs).1, firstMatch_min hfs, hmj, hmax,
    spliceBetween_eq_of_some_some hfs hle⟩

/-- Witness for the amended C1 at the spec's concrete scenario 2. -/
theorem spliceBetween_both_present_returns_splice_witness :
    OccursIn "<X/>".toList "ABC<X/>DEF<Y/>GHI".toList ∧
    OccursIn "<Y/>".toList "ABC<X/>DEF<Y/>GHI".toList ∧
    ∃ i j, MatchAt "<X/>".toList "ABC<X/>DEF<Y/>GHI".toList i ∧
      (∀ k, MatchAt "<X/>".toList "ABC<X/>DEF<Y/>GHI".toList k → i ≤ k) ∧
      MatchAt "<Y/>".toList "ABC<X/>DEF<Y/>GHI".toList j ∧
      (∀ k, MatchAt "<Y/>".toList "ABC<X/>DEF<Y/>GHI".toList k → k ≤ j) ∧
      spliceBetween "ABC<X/>DEF<Y/>GHI".toList "<X/>".toList "<Y/>".toList
          "-PATCH-".toList =
        Except.ok ("ABC<X/>DEF<Y/>GHI".toList.take i ++ "-PATCH-".toList ++
          "ABC<X/>DEF<Y/>GHI".toList.drop j) :=
  have h1 : OccursIn "<X/>".toList "ABC<X/>DEF<Y/>GHI".toList := by
    rw [occursIn_iff_firstMatch]; decide
  have h2 : OccursIn "<Y/>".toList "ABC<X/>DEF<Y/>GHI".toList := by
    rw [occursIn_iff_firstMatch]; decide
  ⟨h1, h2, spliceBetween_both_present_returns_splice _ _ _ _ h1 h2⟩

/-- C2 (counterexample): the claim says an absent END locator makes the
splice fail before any write, but `text.rfind` yields `-1` without raising,
so the script happily writes. In `"abc"` with start locator `"a"`, absent
end locator `"z"` and patch `"P"`, the operation succeeds with `"Pc"` and
the file content changes. -/
theorem spliceBetween_missing_end_still_writes_cex :
    (¬ OccursIn "z".toList "abc".toList) ∧
    spliceBetween "abc".toList "a".toList "z".toList "P".toList =
      Except.ok "Pc".toList ∧
    runSplice "abc".toList "a".toList "z".toList "P".toList ≠ "abc".toList :=
  ⟨by rw [occursIn_iff_firstMatch]; decide, rfl, by decide⟩

/-- C2 (amended): if the START locator is absent from the document,
`spliceBetween` fails with `LocatorNotFound` (the `ValueError` raised by
`text.index`) and aborts before any write, leaving the origin file
unchanged. Absence of the end locator alone does not cause a failure. -/
theorem spliceBetween_missing_start_fails_without_write (d s e p : List Char)
    (h : ¬ OccursIn s d) :
    spliceBetween d s e p = Except.error SpliceError.locatorNotFound ∧
    runSplice d s e p = d := by
  have hfm := firstMatch_eq_none_of_not_occursIn h
  refine ⟨spliceBetween_eq_of_none hfm, ?_⟩
  unfold runSplice
  rw [spliceBetween_eq_of_none hfm]

/-- Witness for the amended C2: start locator `"q"` is absent from `"abc"`;
the splice fails and the file keeps its content. -/
theorem spliceBetween_missing_start_fails_without_write_witness :
    ¬ OccursIn "q".toList "abc".toList ∧
    (spliceBetween "abc".toList "q".toList "b".toList "P".toList =
        Except.error SpliceError.locatorNotFound ∧
      runSplice "abc".toList "q".toList "b".toList "P".toList = "abc".toList) :=
  have h : ¬ OccursIn "q".toList "abc".toList := by
    rw [occursIn_iff_firstMatch]; decide
  ⟨h, spliceBetween_missing_start_fails_without_write _ _ _ _ h⟩

/-- C5: for every nonempty document `d` in which the start locator occurs
but the end locator does not, the splice does not fail: `rfind` yields `-1`
(`lastMatch` yields `none`), the retained suffix is exactly the last
character of the document, and the file is overwritten with
prefix + patch + that single final character. -/
theorem spliceBetween_missing_end_keeps_last_char (d s e p : List Char)
    (hs : OccursIn s d) (he : ¬ OccursIn e d) (hd : d ≠ []) :
    lastMatch e d = none ∧
    ∃ i, MatchAt s d i ∧ (∀ k, MatchAt s d k → i ≤ k) ∧
      spliceBetween d s e p = Except.ok (d.take i ++ p ++ [d.getLast hd]) ∧
      runSplice d s e p = d.take i ++ p ++ [d.getLast hd] := by
  have hfme := firstMatch_eq_none_of_not_occursIn he
  have hlme := lastMatch_eq_none_of_firstMatch hfme
  obtain ⟨i, hfs⟩ := firstMatch_eq_some_of_occursIn hs
  have hsp : spliceBetween d s e p =
      Except.ok (d.take i ++ p ++ [d.getLast hd]) := by
    rw [spliceBetween_eq_of_some_none hfs hlme, drop_length_sub_one_eq hd]
  refine ⟨hlme, i, (firstMatch_spec hfs).1, firstMatch_min hfs, hsp, ?_⟩
  unfold runSplice
  rw [hsp]

/-- Witness for C5: in `"abc"` with start locator `"a"`, absent end locator
`"z"` and patch `"P"`, the retained suffix is the final character `'c'`. -/
theorem spliceBetween_missing_end_keeps_last_char_witness :
    OccursIn "a".toList "abc".toList ∧ (¬ OccursIn "z".toList "abc".toList) ∧
    "abc".toList ≠ [] ∧
    (lastMatch "z".toList "abc".toList = none ∧
      ∃ i, MatchAt "a".toList "abc".toList i ∧
        (∀ k, MatchAt "a".toList "abc".toList k → i ≤ k) ∧
        spliceBetween "abc".toList "a".toList "z".toList "P".toList =
          Except.ok ("abc".toList.take i ++ "P".toList ++
            ["abc".toList.getLast (by decide)]) ∧
        runSplice "abc".toList "a".toList "z".toList "P".toList =
          "abc".toList.take i ++ "P".toList ++
            ["abc".toList.getLast (by decide)]) :=
  have h1 : OccursIn "a".toList "abc".toList := by
    rw [occursIn_iff_firstMatch]; decide
  have h2 : ¬ OccursIn "z".toList "abc".toList := by
    rw [occursIn_iff_firstMatch]; decide
  ⟨h1, h2, by decide,
    spliceBetween_missing_end_keeps_last_char _ _ _ _ h1 h2 (by decide)⟩

/-- C6: for every document in which the start locator occurs and the end
locator occurs at two or more distinct offsets, the splice retains the
suffix beginning at the last (highest-offset) occurrence of the end
locator, which is strictly after some other occurrence, so not the first. -/
theorem spliceBetween_multiple_end_uses_last (d s e p : List Char)
    (hs : OccursIn s d)
    (he2 : ∃ k₁ k₂, k₁ < k₂ ∧ MatchAt e d k₁ ∧ MatchAt e d k₂) :
    ∃ i j, MatchAt s d i ∧ (∀ k, MatchAt s d k → i ≤ k) ∧
      MatchAt e d j ∧ (∀ k, MatchAt e d k → k ≤ j) ∧
      (∃ k, MatchAt e d k ∧ k < j) ∧
      spliceBetween d s e p = Except.ok (d.take i ++ p ++ d.drop j) := by
  obtain ⟨i, hfs⟩ := firstMatch_eq_some_of_occursIn hs
  obtain ⟨k₁, k₂, hlt, hm1, hm2⟩ := he2
  have he : OccursIn e d := occursIn_iff_matchAt.mpr ⟨k₂, hm2⟩
  obtain ⟨j, hle⟩ := lastMatch_eq_some_of_occursIn he
  obtain ⟨hmj, hmax⟩ := lastMatch_spec hle
  refine ⟨i, j, (firstMatch_spec hfs).1, firstMatch_min hfs, hmj, hmax,
    ⟨k₁, hm1, ?_⟩, spliceBetween_eq_of_some_some hfs hle⟩
  have := hmax k₂ hm2
  omega

/-- Witness for C6: in `"aXbXc"` the end locator `"X"` occurs at offsets 1
and 3; the retained suffix starts at offset 3, past the occurrence at 1. -/
theorem spliceBetween_multiple_end_uses_last_witness :
    OccursIn "a".toList "aXbXc".toList ∧
    (1 < 3 ∧ MatchAt "X".toList "aXbXc".toList 1 ∧
      MatchAt "X".toList "aXbXc".toList 3) ∧
    ∃ i j, MatchAt "a".toList "aXbXc".toList i ∧
      (∀ k, MatchAt "a".toList "aXbXc".toList k → i ≤ k) ∧
      MatchAt "X".toList "aXbXc".toList j ∧
      (∀ k, MatchAt "X".toList "aXbXc".toList k → k ≤ j) ∧
      (∃ k, MatchAt "X".toList "aXbXc".toList k ∧ k < j) ∧
      spliceBetween "aXbXc".toList "a".toList "X".toList "P".toList =
        Except.ok ("aXbXc".toList.take i ++ "P".toList ++
          "aXbXc".toList.drop j) :=
  have h1 : OccursIn "a".toList "aXbXc".toList := by
    rw [occursIn_iff_firstMatch]; decide
  have h2 : 1 < 3 ∧ MatchAt "X".toList "aXbXc".toList 1 ∧
      MatchAt "X".toList "aXbXc".toList 3 := by
    refine ⟨by omega, ?_, ?_⟩ <;> exact ⟨by decide, by decide⟩
  ⟨h1, h2, spliceBetween_multiple_end_uses_last _ _ _ _ h1 ⟨1, 3, h2.1, h2.2.1, h2.2.2⟩⟩

/-- C7: for every document in which both locators occur, the matched
end-locator text itself is preserved in `spliceBetween`'s output, not
consumed: the retained suffix of the result starts with the end locator's
text. -/
theorem spliceBetween_preserves_end_locator_text (d s e p : List Char)
    (hs : OccursIn s d) (he : OccursIn e d) :
    ∃ i j, spliceBetween d s e p = Except.ok (d.take i ++ p ++ d.drop j) ∧
      e.isPrefixOf (d.drop j) = true := by
  obtain ⟨i, hfs⟩ := firstMatch_eq_some_of_occursIn hs
  obtain ⟨j, hle⟩ := lastMatch_eq_some_of_occursIn he
  exact ⟨i, j, spliceBetween_eq_of_some_some hfs hle, (lastMatch_spec hle).1.1⟩

/-- Witness for C7 at the spec's concrete scenario 2: the retained suffix
`"<Y/>GHI"` starts with the end locator `"<Y/>"`. -/
theorem spliceBetween_preserves_end_locator_text_witness :
    OccursIn "<X/>".toList "ABC<X/>DEF<Y/>GHI".toList ∧
    OccursIn "<Y/>".toList "ABC<X/>DEF<Y/>GHI".toList ∧
    ∃ i j, spliceBetween "ABC<X/>DEF<Y/>GHI".toList "<X/>".toList
          "<Y/>".toList "-PATCH-".toList =
        Except.ok ("ABC<X/>DEF<Y/>GHI".toList.take i ++ "-PATCH-".toList ++
          "ABC<X/>DEF<Y/>GHI".toList.drop j) ∧
      "<Y/>".toList.isPrefixOf ("ABC<X/>DEF<Y/>GHI".toList.drop j) = true :=
  have h1 : OccursIn "<X/>".toList "ABC<X/>DEF<Y/>GHI".toList := by
    rw [occursIn_iff_firstMatch]; decide
  have h2 : OccursIn "<Y/>".toList "ABC<X/>DEF<Y/>GHI".toList := by
    rw [occursIn_iff_firstMatch]; decide
  ⟨h1, h2, spliceBetween_preserves_end_locator_text _ _ _ _ h1 h2⟩

/-- C8 (counterexample): the claim quantifies over every locator present in
the document, but for the empty locator it fails: the empty locator is
present in `"a"`, `truncateAt "a" ""` yields the empty document, and a
second `truncateAt "" ""` succeeds (returning the empty document again)
instead of failing with `LocatorNotFound`, because the empty locator still
occurs in the truncated output. -/
theorem truncateAt_twice_empty_locator_cex :
    OccursIn ([] : List Char) "a".toList ∧
    truncateAt "a".toList [] = Except.ok [] ∧
    truncateAt [] [] = Except.ok [] ∧
    OccursIn ([] : List Char) ([] : List Char) :=
  ⟨⟨[], "a".toList, rfl⟩, rfl, rfl, ⟨[], [], rfl⟩⟩

/-- C8 (amended): `truncateAt` is not idempotent: for every document `d`
and NONEMPTY locator `l` present in `d`, the truncated output contains no
occurrence of `l`, so applying `truncateAt` a second time with the same
locator fails with `LocatorNotFound`. -/
theorem truncateAt_not_idempotent (d l : List Char) (hl : l ≠ [])
    (h : OccursIn l d) :
    ∃ t, truncateAt d l = Except.ok t ∧ ¬ OccursIn l t ∧
      truncateAt t l = Except.error SpliceError.locatorNotFound := by
  obtain ⟨i, hfm⟩ := firstMatch_eq_some_of_occursIn h
  have hno : ¬ OccursIn l (d.take i) := by
    intro hocc
    obtain ⟨k, hmk⟩ := occursIn_iff_matchAt.mp hocc
    have hkle : k ≤ i := by
      have := hmk.2
      rw [List.length_take] at this
      omega
    obtain ⟨t, ht⟩ := isPrefixOf_iff_append.mp hmk.1
    rw [List.drop_take] at ht
    have hdk : ∃ u, d.drop k = l ++ t ++ u := by
      refine ⟨(d.drop k).drop (i - k), ?_⟩
      rw [← ht, List.take_append_drop]
    obtain ⟨u, hu⟩ := hdk
    have hmdk : MatchAt l d k := by
      refine ⟨isPrefixOf_iff_append.mpr ⟨t ++ u, by rw [hu, List.append_assoc]⟩, ?_⟩
      have := (firstMatch_spec hfm).1.2
      omega
    have hik : i ≤ k := firstMatch_min hfm k hmdk
    have hki : k = i := by omega
    subst hki
    have : t = [] ∧ l = [] := by
      have hlen : (l ++ t).length = 0 := by
        rw [← ht]
        have : k - k = 0 := by omega
        rw [this]
        rfl
      simp at hlen
      exact ⟨hlen.2, hlen.1⟩
    exact hl this.2
  refine ⟨d.take i, truncateAt_eq_of_some hfm, hno,
    truncateAt_eq_of_none (firstMatch_eq_none_of_not_occursIn hno)⟩

/-- Witness for the amended C8 at the spec's concrete scenario 1: a first
`truncateAt "ABC<X/>DEF" "<X/>"` gives `"ABC"`, where the locator no longer
occurs, and a second application fails. -/
theorem truncateAt_not_idempotent_witness :
    "<X/>".toList ≠ [] ∧ OccursIn "<X/>".toList "ABC<X/>DEF".toList ∧
    ∃ t, truncateAt "ABC<X/>DEF".toList "<X/>".toList = Except.ok t ∧
      ¬ OccursIn "<X/>".toList t ∧
      truncateAt t "<X/>".toList = Except.error SpliceError.locatorNotFound :=
  have h1 : OccursIn "<X/>".toList "ABC<X/>DEF".toList := by
    rw [occursIn_iff_firstMatch]; decide
  ⟨by decide, h1, truncateAt_not_idempotent _ _ (by decide) h1⟩

end TextPatch
